import Mathlib

/-!
Shallow embedding of the frps process-supervisor (TypeScript/Bun source:
ring buffer, line splitter, FrpsManager create/stop, HTTP body validation)
together with proofs about the embedded definitions.

JavaScript numbers are modelled at integer granularity (the source performs
no fractional arithmetic on the values the claims mention); `NaN` is kept as
an explicit constructor because `toArray` and validation compare with it.
-/

/-- A JavaScript number as far as the embedded code observes it:
either NaN or an integer value. -/
inductive JSNum where
  | nan : JSNum
  | num : Int → JSNum
deriving Repr, DecidableEq

/-- `limit > 0` in JS: false for NaN, zero and negatives. -/
def JSNum.gtZero : JSNum → Bool
  | .nan => false
  | .num i => decide (0 < i)

/-- Truncation of a JS number to a natural (used for slice arithmetic;
only ever applied when `gtZero` holds, where it is exact). -/
def JSNum.toNatFloor : JSNum → Nat
  | .nan => 0
  | .num i => i.toNat

/-- The RingBuffer class.  `buffer` is the backing array: JS allocates
`new Array(capacity)` whose unwritten slots are holes, modelled as `none`;
written slots are `some line`. -/
structure RingBuffer where
  capacity : Nat
  buffer : List (Option String)
  index : Nat
  filled : Bool
deriving Repr, DecidableEq

/-- `constructor(capacity)`: clamps the capacity to `[10, 10000]` via
`Math.max(10, Math.min(capacity, 10000))`. -/
def RingBuffer.new (capacity : Nat) : RingBuffer :=
  let c := max 10 (min capacity 10000)
  { capacity := c, buffer := List.replicate c none, index := 0, filled := false }

/-- `push(line)`: write at `index`, advance modulo capacity, mark `filled`
when the index wraps to 0. -/
def RingBuffer.push (rb : RingBuffer) (line : String) : RingBuffer :=
  let buffer := rb.buffer.set rb.index (some line)
  let index := (rb.index + 1) % rb.capacity
  { rb with buffer := buffer, index := index,
            filled := rb.filled || decide (index = 0) }

/-- `toArray(limit?)`: chronological snapshot; when `limit` is a number
greater than 0, `data.slice(Math.max(0, data.length - limit))`. -/
def RingBuffer.toArray (rb : RingBuffer) (limit : Option JSNum) :
    List (Option String) :=
  let data := if rb.filled
    then rb.buffer.drop rb.index ++ rb.buffer.take rb.index
    else rb.buffer.take rb.index
  match limit with
  | some l => if l.gtZero then data.drop (data.length - l.toNatFloor) else data
  | none => data

/-- Sequential pushes (left to right). -/
def RingBuffer.pushAll (rb : RingBuffer) (ls : List String) : RingBuffer :=
  ls.foldl RingBuffer.push rb

/-- The last `cap` elements of a list (all of it when shorter). -/
def keepLast (cap : Nat) (xs : List α) : List α :=
  xs.drop (xs.length - cap)

/-- Structural well-formedness maintained by the constructor and by `push`. -/
def RingBuffer.Wf (rb : RingBuffer) : Prop :=
  rb.buffer.length = rb.capacity ∧ rb.index < rb.capacity ∧ 0 < rb.capacity

example : ((RingBuffer.new 10).pushAll ["a", "b", "c"]).toArray none
    = [some "a", some "b", some "c"] := by decide

example : ((RingBuffer.new 3).pushAll ["a", "b", "c"]).capacity = 10 := by decide

theorem RingBuffer.wf_new (c : Nat) : (RingBuffer.new c).Wf := by
  refine ⟨by simp [RingBuffer.new], ?_, ?_⟩ <;> simp [RingBuffer.new]

theorem RingBuffer.length_toArray_none (rb : RingBuffer) (h : rb.Wf) :
    (rb.toArray none).length = if rb.filled then rb.capacity else rb.index := by
  obtain ⟨hlen, hi, hcap⟩ := h
  unfold RingBuffer.toArray
  cases hf : rb.filled <;> simp [hlen] <;> omega

theorem RingBuffer.wf_push (rb : RingBuffer) (h : rb.Wf) (l : String) :
    (rb.push l).Wf ∧ (rb.push l).capacity = rb.capacity := by
  obtain ⟨hlen, hi, hcap⟩ := h
  exact ⟨⟨by simp [RingBuffer.push, hlen], Nat.mod_lt _ hcap, hcap⟩, rfl⟩

/-- One push observed through `toArray`: appends the line, dropping the
oldest retained one exactly when the buffer had already wrapped. -/
theorem RingBuffer.toArray_push_none :
    ∀ (rb : RingBuffer), rb.Wf → ∀ (l : String),
    (rb.push l).toArray none =
      (if rb.filled then (rb.toArray none).drop 1 else rb.toArray none)
        ++ [some l] := by
  rintro ⟨cap, buf, i, fl⟩ ⟨hlen, hi, hcap⟩ l
  simp only at hlen hi hcap
  have hset : buf.set i (some l) = buf.take i ++ some l :: buf.drop (i + 1) :=
    List.set_eq_take_cons_drop _ (by omega)
  have hlentake : (buf.take i).length = i := by
    rw [List.length_take]; omega
  have htake1 : (buf.set i (some l)).take (i + 1) = buf.take i ++ [some l] := by
    rw [hset, List.take_append_eq_append_take, hlentake, List.take_take]
    have h1 : min (i + 1) i = i := by omega
    have h2 : i + 1 - i = 1 := by omega
    rw [h1, h2]
    simp
  have hdrop1 : (buf.set i (some l)).drop (i + 1) = buf.drop (i + 1) := by
    rw [hset, List.drop_append_eq_append_drop]
    have h1 : (buf.take i).drop (i + 1) = [] :=
      List.drop_eq_nil_iff.mpr (by omega)
    have h2 : i + 1 - (buf.take i).length = 1 := by omega
    rw [h1, h2]
    simp
  have hcons : buf.drop i = buf[i] :: buf.drop (i + 1) :=
    List.drop_eq_getElem_cons (by omega)
  rcases Nat.lt_or_ge (i + 1) cap with hiA | hiB
  · -- index advances without wrapping
    have hmod : (i + 1) % cap = i + 1 := Nat.mod_eq_of_lt hiA
    cases fl
    · simp only [RingBuffer.push, RingBuffer.toArray, hmod]
      have : ¬(i + 1 = 0) := by omega
      simp [this, htake1]
    · have hne : ¬(i + 1 = 0) := by omega
      simp only [RingBuffer.push, RingBuffer.toArray, hmod, hne, htake1, hdrop1]
      simp only [decide_eq_false hne, Bool.true_or, Bool.or_false, if_true]
      rw [hcons, List.cons_append, List.drop_succ_cons, List.drop_zero,
        List.append_assoc]
  · -- index wraps to 0 and the buffer becomes filled
    have hieq : i + 1 = cap := by omega
    have hmod : (i + 1) % cap = 0 := by rw [hieq, Nat.mod_self]
    have hdropnil : buf.drop (i + 1) = [] := List.drop_eq_nil_iff.mpr (by omega)
    have hsetfull : buf.set i (some l) = buf.take i ++ [some l] := by
      rw [hset, hdropnil]
    cases fl
    · simp only [RingBuffer.push, RingBuffer.toArray, hmod]
      simp [hsetfull]
    · simp only [RingBuffer.push, RingBuffer.toArray, hmod]
      simp only [decide_eq_true_eq, Bool.true_or, if_true, List.drop_zero,
        List.take_zero, List.append_nil]
      rw [hsetfull, hcons, List.cons_append, List.drop_succ_cons, List.drop_zero,
        hdropnil, List.nil_append]

theorem keepLast_append_left (cap : Nat) (xs ys : List α) (h : cap ≤ ys.length) :
    keepLast cap (xs ++ ys) = keepLast cap ys := by
  unfold keepLast
  rw [List.length_append]
  have harith : xs.length + ys.length - cap = xs.length + (ys.length - cap) := by
    omega
  rw [harith, List.drop_append]

/-- Pushing a whole sequence keeps exactly the last `capacity` lines, in
push (chronological) order. -/
theorem RingBuffer.toArray_pushAll (ls : List String) :
    ∀ (rb : RingBuffer), rb.Wf →
    (rb.pushAll ls).toArray none
        = keepLast rb.capacity (rb.toArray none ++ ls.map some)
      ∧ (rb.pushAll ls).Wf ∧ (rb.pushAll ls).capacity = rb.capacity := by
  induction ls with
  | nil =>
    intro rb h
    refine ⟨?_, h, rfl⟩
    have hle : (rb.toArray none).length ≤ rb.capacity := by
      rw [rb.length_toArray_none h]
      rcases h with ⟨_, hi, _⟩
      split <;> omega
    show rb.toArray none = keepLast rb.capacity (rb.toArray none ++ List.map some [])
    unfold keepLast
    rw [List.map_nil, List.append_nil, Nat.sub_eq_zero_of_le hle, List.drop_zero]
  | cons l ls ih =>
    intro rb h
    have hstep := rb.toArray_push_none h l
    obtain ⟨hwf, hcap⟩ := rb.wf_push h l
    obtain ⟨ih1, ih2, ih3⟩ := ih (rb.push l) hwf
    refine ⟨?_, ih2, ?_⟩
    · show (RingBuffer.pushAll (rb.push l) ls).toArray none = _
      rw [ih1, hcap, hstep, List.map_cons]
      cases hf : rb.filled
      · rw [if_neg (by simp), List.append_assoc, List.singleton_append]
      · rw [if_pos rfl]
        have hclen : (rb.toArray none).length = rb.capacity := by
          rw [rb.length_toArray_none h, hf, if_pos rfl]
        have hcap0 : 0 < rb.capacity := h.2.2
        conv_rhs =>
          rw [← List.take_append_drop 1 (rb.toArray none), List.append_assoc]
        rw [keepLast_append_left rb.capacity ((rb.toArray none).take 1)
            ((rb.toArray none).drop 1 ++ some l :: List.map some ls) (by
          rw [List.length_append, List.length_drop, hclen, List.length_cons]
          omega)]
        rw [List.append_assoc, List.singleton_append]
    · show ((rb.push l).pushAll ls).capacity = rb.capacity
      rw [ih3, hcap]

/-- C3: for every RingBuffer capacity C (every constructed capacity lies in
the clamp range [10, 10000]) and every finite sequence of pushed lines,
`toArray()` with no limit returns exactly the last `min length C` pushed
lines in chronological order — hence at most C entries, always ending with
the most recently pushed line. -/
theorem claim_C3_toArray_chronological (C : Nat) (h1 : 10 ≤ C) (h2 : C ≤ 10000)
    (ls : List String) :
    ((RingBuffer.new C).pushAll ls).toArray none
        = (ls.drop (ls.length - C)).map some
    ∧ (((RingBuffer.new C).pushAll ls).toArray none).length ≤ C
    ∧ (∀ l, ls.getLast? = some l →
        (((RingBuffer.new C).pushAll ls).toArray none).getLast?
          = some (some l)) := by
  have h0 := RingBuffer.wf_new C
  obtain ⟨hchar, _, _⟩ := RingBuffer.toArray_pushAll ls (RingBuffer.new C) h0
  have hcapC : (RingBuffer.new C).capacity = C := by
    simp [RingBuffer.new]
    omega
  have hempty : (RingBuffer.new C).toArray none = [] := rfl
  have hmain : ((RingBuffer.new C).pushAll ls).toArray none
      = (ls.drop (ls.length - C)).map some := by
    rw [hchar, hcapC, hempty, List.nil_append]
    unfold keepLast
    rw [List.length_map]
    exact (List.map_drop some ls (ls.length - C)).symm
  refine ⟨hmain, ?_, ?_⟩
  · rw [hmain, List.length_map, List.length_drop]
    omega
  · intro l hl
    have hne : ls ≠ [] := by rintro rfl; simp at hl
    have hlpos : 0 < ls.length := List.length_pos.mpr hne
    have hdropne : ls.drop (ls.length - C) ≠ [] := by
      rw [Ne, List.drop_eq_nil_iff]
      omega
    have hgl : (ls.drop (ls.length - C)).getLast? = ls.getLast? := by
      conv_rhs => rw [← List.take_append_drop (ls.length - C) ls]
      rw [List.getLast?_append_of_ne_nil _ hdropne]
    rw [hmain, List.getLast?_map, hgl, hl]
    rfl

/-- Witness for C3 at the spec scenario: capacity 10, lines numbered 1..25
pushed, `toArray()` returns lines 16..25 in order. -/
theorem claim_C3_witness :
    ((RingBuffer.new 10).pushAll ["1", "2", "3", "4", "5", "6", "7", "8", "9",
        "10", "11", "12", "13", "14", "15", "16", "17", "18", "19", "20", "21",
        "22", "23", "24", "25"]).toArray none
      = ["16", "17", "18", "19", "20", "21", "22", "23", "24", "25"].map
          some := by
  have h := claim_C3_toArray_chronological 10 (by decide) (by decide)
    ["1", "2", "3", "4", "5", "6", "7", "8", "9", "10", "11", "12", "13", "14",
     "15", "16", "17", "18", "19", "20", "21", "22", "23", "24", "25"]
  rw [h.1]
  decide

/-- C10: calling `toArray` with a limit that is zero, negative or NaN
behaves exactly like calling `toArray` with no limit: all currently
retained entries are returned. -/
theorem claim_C10_nonpositive_limit (rb : RingBuffer) (j : JSNum)
    (h : j = JSNum.nan ∨ ∃ i : Int, i ≤ 0 ∧ j = JSNum.num i) :
    rb.toArray (some j) = rb.toArray none := by
  have hgt : j.gtZero = false := by
    rcases h with rfl | ⟨i, hi, rfl⟩
    · rfl
    · simp [JSNum.gtZero]
      omega
  unfold RingBuffer.toArray
  simp [hgt]

/-- Witness for C10 at limit 0 on a buffer retaining two lines. -/
theorem claim_C10_witness :
    ((RingBuffer.new 10).pushAll ["a", "b"]).toArray (some (JSNum.num 0))
      = ((RingBuffer.new 10).pushAll ["a", "b"]).toArray none :=
  claim_C10_nonpositive_limit _ _ (Or.inr ⟨0, le_refl 0, rfl⟩)

/-- C4 counterexample: with one retained entry, the limit L = 0 satisfies
L ≤ retained count, yet `toArray(0)` returns the whole retained content
rather than the last 0 entries (the empty list). -/
theorem claim_C4_counterexample :
    ((RingBuffer.new 10).push "a").toArray (some (JSNum.num 0)) = [some "a"]
    ∧ ((RingBuffer.new 10).push "a").toArray (some (JSNum.num 0)) ≠ [] := by
  decide

/-- C4 amended: for every RingBuffer state and every limit L with
1 ≤ L ≤ retained count, `toArray(L)` returns exactly the last L entries of
`toArray()` (a limit of 0, like any non-positive limit, instead returns all
entries). -/
theorem claim_C4_amended_last_L (rb : RingBuffer) (L : Nat) (h1 : 1 ≤ L)
    (h2 : L ≤ (rb.toArray none).length) :
    rb.toArray (some (JSNum.num L))
        = (rb.toArray none).drop ((rb.toArray none).length - L)
    ∧ (rb.toArray (some (JSNum.num L))).length = L
    ∧ (rb.toArray none).take ((rb.toArray none).length - L)
        ++ rb.toArray (some (JSNum.num L)) = rb.toArray none := by
  have hgt : (JSNum.num (L : Int)).gtZero = true := by
    simp [JSNum.gtZero]
    omega
  have hfloor : (JSNum.num (L : Int)).toNatFloor = L := by
    simp [JSNum.toNatFloor]
  have heq : rb.toArray (some (JSNum.num L))
      = (rb.toArray none).drop ((rb.toArray none).length - L) := by
    unfold RingBuffer.toArray
    simp [hgt, hfloor]
  refine ⟨heq, ?_, ?_⟩
  · rw [heq, List.length_drop]
    omega
  · rw [heq, List.take_append_drop]

/-- Witness for the amended C4: three retained lines, limit 2 returns the
last two. -/
theorem claim_C4_witness :
    ((RingBuffer.new 10).pushAll ["a", "b", "c"]).toArray
        (some (JSNum.num ((2 : Nat) : Int)))
      = [some "b", some "c"] := by
  have h := claim_C4_amended_last_L
    ((RingBuffer.new 10).pushAll ["a", "b", "c"]) 2 (by decide) (by decide)
  rw [h.1]
  decide

/-- `line.replace(/\r$/, "")`: strip a single trailing carriage return. -/
def stripCR (l : List Char) : List Char :=
  if l.getLast? = some '\r' then l.dropLast else l

/-- The inner `while ((idx = buf.indexOf("\n")) !== -1)` loop of
`streamLines`: split the buffer into the completed lines (the segments
before each line feed) and the remaining unterminated tail. -/
def drain : List Char → List (List Char) × List Char
  | [] => ([], [])
  | c :: cs =>
    let r := drain cs
    if c = '\n' then ([] :: r.1, r.2)
    else
      match r.1 with
      | [] => ([], c :: r.2)
      | l :: rest => ((c :: l) :: rest, r.2)

/-- One `for await` iteration of `streamLines`: append the decoded chunk to
the carry buffer and emit every completed line, CR-stripped.  `TextDecoder`
with `stream: true` decodes byte chunks boundary-transparently, so chunks
are modelled at the level of decoded text. -/
def feedChunk (buf chunk : List Char) : List (List Char) × List Char :=
  ((drain (buf ++ chunk)).1.map stripCR, (drain (buf ++ chunk)).2)

/-- The chunk loop of `streamLines`: emitted lines, in emission order,
together with the final carry buffer. -/
def runStream (buf : List Char) : List (List Char) → List (List Char) × List Char
  | [] => ([], buf)
  | ch :: rest =>
    let fc := feedChunk buf ch
    let rr := runStream fc.2 rest
    (fc.1 ++ rr.1, rr.2)

/-- All lines `streamLines` hands to its sink, in order, including the
final `if (buf) onLine(buf)` emission of a non-empty unterminated tail
(which the code does not CR-strip). -/
def streamLinesModel (chunks : List (List Char)) : List (List Char) :=
  let r := runStream [] chunks
  if r.2 = [] then r.1 else r.1 ++ [r.2]

/-- Modelled from the spec's words: the segments of the text split at every
line-feed boundary. -/
def splitNl : List Char → List (List Char)
  | [] => [[]]
  | c :: cs =>
    if c = '\n' then [] :: splitNl cs
    else
      match splitNl cs with
      | [] => [[c]]
      | s :: ss => (c :: s) :: ss

/-- Modelled from the spec's words: every segment before a line feed is a
completed line, emitted once in order with a single trailing carriage
return stripped; at stream end a non-empty unterminated final segment is
emitted once, and an empty remainder is not emitted. -/
def linesSpec (text : List Char) : List (List Char) :=
  let segs := splitNl text
  segs.dropLast.map stripCR
    ++ (segs.getLast?).elim [] (fun l => if l = [] then [] else [l])

theorem drain_no_nl (xs : List Char) (h : Char.ofNat 10 ∉ xs) :
    drain xs = ([], xs) := by
  induction xs with
  | nil => rfl
  | cons c cs ih =>
    have hc : ¬(c = '\n') := by
      intro hh
      exact h (by simp [hh])
    have hcs : Char.ofNat 10 ∉ cs := fun hh => h (List.mem_cons_of_mem c hh)
    simp [drain, ih hcs, hc]

theorem drain_snd_no_nl (xs : List Char) : Char.ofNat 10 ∉ (drain xs).2 := by
  induction xs with
  | nil => simp [drain]
  | cons c cs ih =>
    by_cases hc : c = '\n'
    · subst hc
      simp [drain, ih]
    · rcases h1 : (drain cs).1 with _ | ⟨l, rest⟩
      · simp only [drain, h1, if_neg hc]
        intro hmem
        rcases List.mem_cons.mp hmem with hmem | hmem
        · exact hc (by rw [← hmem])
        · exact ih hmem
      · simp only [drain, h1, if_neg hc]
        exact ih

theorem drain_append (xs ys : List Char) :
    drain (xs ++ ys)
      = ((drain xs).1 ++ (drain ((drain xs).2 ++ ys)).1,
         (drain ((drain xs).2 ++ ys)).2) := by
  induction xs with
  | nil => simp [drain]
  | cons c cs ih =>
    rw [List.cons_append]
    by_cases hc : c = '\n'
    · subst hc
      simp [drain, ih]
    · rcases h1 : (drain cs).1 with _ | ⟨l, rest⟩
      · simp only [drain, ih, h1, List.nil_append, if_neg hc, List.cons_append]
      · simp only [drain, ih, h1, if_neg hc, List.cons_append]

theorem splitNl_eq_drain (xs : List Char) :
    splitNl xs = (drain xs).1 ++ [(drain xs).2] := by
  induction xs with
  | nil => rfl
  | cons c cs ih =>
    by_cases hc : c = '\n'
    · subst hc
      simp [splitNl, drain, ih]
    · rcases h1 : (drain cs).1 with _ | ⟨l, rest⟩
      · rw [h1] at ih
        simp only [List.nil_append] at ih
        simp [splitNl, drain, ih, h1, hc]
      · rw [h1] at ih
        simp [splitNl, drain, ih, h1, hc]

theorem runStream_eq_drain :
    ∀ (chunks : List (List Char)) (buf : List Char), Char.ofNat 10 ∉ buf →
    runStream buf chunks
      = ((drain (buf ++ chunks.flatten)).1.map stripCR,
         (drain (buf ++ chunks.flatten)).2) := by
  intro chunks
  induction chunks with
  | nil =>
    intro buf h
    simp [runStream, drain_no_nl buf h]
  | cons ch rest ih =>
    intro buf h
    have hb2 : Char.ofNat 10 ∉ (drain (buf ++ ch)).2 := drain_snd_no_nl _
    simp only [runStream, feedChunk]
    rw [ih _ hb2]
    have happ := drain_append (buf ++ ch) rest.flatten
    rw [List.flatten_cons, ← List.append_assoc, happ]
    simp [List.map_append]

/-- C9: for every stream and every chunking of it, the `streamLines`
splitter emits exactly the line-feed-separated segments of the whole
decoded text, each completed line exactly once, in order, with a single
trailing carriage return stripped; at stream end a non-empty unterminated
partial line is emitted exactly once as the final line and an empty
remainder is not emitted.  The right-hand side depends only on the
concatenation of the chunks, so the result is chunking-invariant. -/
theorem claim_C9_stream_lines (chunks : List (List Char)) :
    streamLinesModel chunks = linesSpec chunks.flatten := by
  have hrun := runStream_eq_drain chunks [] (by simp)
  rw [List.nil_append] at hrun
  unfold streamLinesModel linesSpec
  rw [hrun, splitNl_eq_drain]
  simp only [List.dropLast_concat, List.getLast?_concat, Option.elim_some]
  rcases h2 : (drain chunks.flatten).2 with _ | ⟨a, b⟩ <;> simp [h2]

example : streamLinesModel [['a', '\r', '\n', 'b'], ['c', '\n', 'd']]
    = [['a'], ['b', 'c'], ['d']] := by decide

example : streamLinesModel [['x', '\r']] = [['x', '\r']] := by decide

example : streamLinesModel [['x', '\n']] = [['x']] := by decide

/-- A JSON-like JavaScript value, as appears in request bodies and
structured configs. -/
inductive JVal where
  | jnull : JVal
  | jbool : Bool → JVal
  | jnum : Int → JVal
  | jstr : String → JVal
  | jarr : List JVal → JVal
  | jobj : List (String × JVal) → JVal

/-- Lower-case hexadecimal digit, for the `\u00XX` escapes of
`JSON.stringify`. -/
def hexDigit (n : Nat) : String :=
  String.singleton (Char.ofNat (if n < 10 then 48 + n else 87 + n))

/-- One character of `JSON.stringify` string escaping. -/
def jsonEscapeChar (c : Char) : String :=
  if c = Char.ofNat 34 then "\\\""
  else if c = Char.ofNat 92 then "\\\\"
  else if c = '\n' then "\\n"
  else if c = '\r' then "\\r"
  else if c = '\t' then "\\t"
  else if c = Char.ofNat 8 then "\\b"
  else if c = Char.ofNat 12 then "\\f"
  else if c.toNat < 32 then
    "\\u00" ++ hexDigit (c.toNat / 16) ++ hexDigit (c.toNat % 16)
  else String.singleton c

/-- `JSON.stringify` of a string value. -/
def jsonStringify (s : String) : String :=
  "\"" ++ String.join (s.data.map jsonEscapeChar) ++ "\""

mutual

/-- `tomlValue(value)`: strings via `JSON.stringify`, numbers and booleans
via `String(value)`, arrays and objects inline, anything else `"null"`. -/
def tomlValue : JVal → String
  | .jstr s => jsonStringify s
  | .jnum n => toString n
  | .jbool b => if b then "true" else "false"
  | .jarr xs => "[" ++ tomlValueList xs ++ "]"
  | .jobj kvs => "\x7b " ++ tomlValuePairs kvs ++ " \x7d"
  | .jnull => "null"

/-- `value.map(tomlValue).join(", ")`. -/
def tomlValueList : List JVal → String
  | [] => ""
  | [x] => tomlValue x
  | x :: xs => tomlValue x ++ ", " ++ tomlValueList xs

/-- `Object.entries(value).map(([k, v]) => ...).join(", ")`. -/
def tomlValuePairs : List (String × JVal) → String
  | [] => ""
  | [(k, v)] => k ++ " = " ++ tomlValue v
  | (k, v) :: kvs => k ++ " = " ++ tomlValue v ++ ", " ++ tomlValuePairs kvs

end

/-- `Object.entries` for the values that can reach `generateToml` and the
environment spread: own enumerable properties in order (array elements get
their index as key; primitives and null have none). -/
def jsEntries : JVal → List (String × JVal)
  | .jobj kvs => kvs
  | .jarr xs => xs.enum.map (fun p => (toString p.1, p.2))
  | _ => []

/-- `generateToml(config)`: flat entries first, then one `[table]` section
per object-valued entry (null and arrays count as flat values). -/
def generateToml (config : JVal) : String :=
  let entries := jsEntries config
  let isTable : JVal → Bool := fun v => match v with
    | .jobj _ => true
    | _ => false
  let flatEntries := entries.filter (fun p => !(isTable p.2))
  let tables := entries.filter (fun p => isTable p.2)
  let flatLines := flatEntries.map (fun p => p.1 ++ " = " ++ tomlValue p.2)
  let tableLines := (tables.map (fun p =>
    ["", "[" ++ p.1 ++ "]"]
      ++ (jsEntries p.2).map (fun q => q.1 ++ " = " ++ tomlValue q.2))).flatten
  String.intercalate "\n" (flatLines ++ tableLines) ++ "\n"

example : generateToml (JVal.jobj [("bindPort", JVal.jnum 7000),
    ("auth", JVal.jobj [("method", JVal.jstr "token"),
                        ("token", JVal.jstr "s")])])
  = "bindPort = 7000\n\n[auth]\nmethod = \"token\"\ntoken = \"s\"\n" := by
  decide

example : generateToml (JVal.jobj []) = "\n" := by decide

/-- `HttpError`: an error carrying an HTTP status code. -/
structure HttpError where
  status : Nat
  message : String
deriving Repr, DecidableEq

/-- `ManagedProcessState`: the tagged run-state variant of a record. -/
inductive PState where
  | running (pid : Nat) (startedAt : Nat)
  | exited (startedAt : Nat) (exitedAt : Nat) (exitCode : Option Int)
      (signal : Option String)
deriving Repr, DecidableEq

/-- `state.status === "exited"`. -/
def PState.isExited : PState → Bool
  | .running _ _ => false
  | .exited _ _ _ _ => true

/-- `ManagedProcessMeta`, viewed as a value.  `token` is an allocation
stamp distinguishing the distinct record objects that may successively
occupy the same id (the source distinguishes them by object identity). -/
structure PRecord where
  token : Nat
  id : String
  binaryPath : String
  configPath : String
  workDir : String
  args : List String
  env : List (String × JVal)
  state : PState
  logBuffer : RingBuffer

/-- The `FrpsManager` state: runtime root, the `processes` map in insertion
order, and the next allocation stamp. -/
structure SupState where
  runtimeRoot : String
  processes : List (String × PRecord)
  nextToken : Nat

/-- `Map.get`. -/
def lookupId (m : List (String × PRecord)) (id : String) : Option PRecord :=
  (m.find? (fun p => p.1 == id)).map (·.2)

/-- `Map.set`: replace in place when the key exists, else append. -/
def mapSet (m : List (String × PRecord)) (k : String) (v : PRecord) :
    List (String × PRecord) :=
  if m.any (fun p => p.1 == k) then
    m.map (fun p => if p.1 == k then (k, v) else p)
  else m ++ [(k, v)]

/-- Host-visible effects of the supervisor, in program order. -/
inductive Effect where
  | mkdir (path : String)
  | writeFile (path : String) (content : String)
  | spawn (cmd : List String) (cwd : String)
  | kill (pid : Nat) (signal : String)
deriving Repr, DecidableEq

/-- Whether an effect touches the filesystem (directory or file creation). -/
def Effect.isFs : Effect → Bool
  | .mkdir _ => true
  | .writeFile _ _ => true
  | _ => false

/-- The data with which a child's `exited.then` watcher fires: the id and
`startedAt` captured in the closure, the wall-clock time at exit, and the
child's exit code. -/
structure WatcherEvent where
  id : String
  startedAt : Nat
  exitedAt : Nat
  exitCode : Option Int
deriving Repr, DecidableEq

/-- The `child.exited.then(...)` handler: look the id up in the registry
(a replaced record is silently skipped only if the id is gone entirely)
and stamp whatever record currently occupies the id as exited. -/
def watcherFire (s : SupState) (ev : WatcherEvent) : SupState :=
  match lookupId s.processes ev.id with
  | none => s
  | some prev =>
    let updated := { prev with
      state := PState.exited ev.startedAt ev.exitedAt ev.exitCode none }
    { s with processes := mapSet s.processes ev.id updated }

/-- `stop(id, {force, timeoutMs})`.  The bounded 50 ms poll loop is
modelled by an oracle: `ev = some e` means the exit watcher fired during
the wait (the only concurrent mutation the loop can observe), `none` means
the timeout elapsed without an exit.  `timeoutMs` bounds wall-clock time
only and does not otherwise affect the outcome. -/
def stopModel (s : SupState) (id : String) (force : Bool) (timeoutMs : Nat)
    (ev : Option WatcherEvent) : SupState × List Effect × Bool :=
  match lookupId s.processes id with
  | none => (s, [], false)
  | some meta =>
    match meta.state with
    | .exited _ _ _ _ => (s, [], true)
    | .running pid _ =>
      let effs := [Effect.kill pid "SIGTERM"]
      let s1 := match ev with
        | some e => watcherFire s e
        | none => s
      match lookupId s1.processes id with
      | none => (s1, effs, true)
      | some cur =>
        match cur.state with
        | .running pid2 _ =>
          if force then (s1, effs ++ [Effect.kill pid2 "SIGKILL"], true)
          else (s1, effs, true)
        | .exited _ _ _ _ => (s1, effs, true)

/-- The validated input `create` receives (the `out` object built by
`validateCreateBody`). -/
structure CreateInput where
  id : Option String
  binaryPath : Option String
  configToml : Option String
  config : Option JVal
  env : Option (List (String × JVal))
  args : Option (List String)
  logLines : Option Nat
  replaceIfExists : Bool

/-- Everything the host supplies during one `create` call: the generated
uuid, `stat`Bun.which` outcomes, the spawned pid, `Date.now()`, the
process environment, and whether the watcher fires during the replace-path
stop wait. -/
structure CreateOracle where
  uuid : String
  statExists : String → Bool
  bunWhich : String → Option String
  pid : Nat
  now : Nat
  hostEnv : List (String × JVal)
  stopEv : Option WatcherEvent

/-- `assertBinaryExists`: a locator containing a path separator must exist
at that exact path; a bare name must resolve via `Bun.which`.
`includes("/")` with a one-character needle is character membership,
modelled on the character list so it evaluates. -/
def assertBinaryExists (o : CreateOracle) (binaryPath : String) :
    Except HttpError Unit :=
  if binaryPath.data.contains '/' || binaryPath.data.contains (Char.ofNat 92) then
    if o.statExists binaryPath then Except.ok ()
    else Except.error ⟨400, "binary not found at path: " ++ binaryPath⟩
  else
    match o.bunWhich binaryPath with
    | some _ => Except.ok ()
    | none => Except.error ⟨400, "binary not found in PATH: " ++ binaryPath⟩

/-- Object spread of two objects: keys of the first in order, values
overridden by the second on collision, then new keys of the second. -/
def spreadMerge (a b : List (String × JVal)) : List (String × JVal) :=
  a.map (fun p => match b.find? (fun q => q.1 == p.1) with
    | some q => (p.1, q.2)
    | none => p)
  ++ b.filter (fun q => !(a.any (fun p => p.1 == q.1)))

/-- `create(input)` under the host oracle `o`: the post state, the host
effects in program order, and the thrown error or returned record.
`path.join(runtimeRoot, "frps-" + id)` is modelled as plain concatenation
(the runtime root carries no trailing slash).  The exit watcher attached
at the end can only run after `create` returns (a separate `watcherFire`
step); the only watcher that can fire inside `create` is the one the
replace-path `stop` wait may observe, `o.stopEv`. -/
def createModel (s : SupState) (input : CreateInput) (o : CreateOracle) :
    SupState × List Effect × Except HttpError PRecord :=
  let id := input.id.getD o.uuid
  let conflict := (lookupId s.processes id).isSome
  if conflict && !input.replaceIfExists then
    (s, [], .error ⟨409, "frps with id " ++ id ++ " already exists"⟩)
  else
    let stopRes := if conflict then stopModel s id true 1000 o.stopEv
                   else (s, [], false)
    let s1 := stopRes.1
    let effs0 := stopRes.2.1
    let binaryPath := input.binaryPath.getD "frps"
    match assertBinaryExists o binaryPath with
    | .error e => (s1, effs0, .error e)
    | .ok _ =>
      let workDir := s1.runtimeRoot ++ "/frps-" ++ id
      let configPath := workDir ++ "/frps.toml"
      let content := match input.configToml with
        | some t => t
        | none => generateToml (input.config.getD (JVal.jobj []))
      let args := match input.args with
        | some l => if l.length > 0 then l else ["-c", configPath]
        | none => ["-c", configPath]
      let env := spreadMerge o.hostEnv (input.env.getD [])
      let logBuffer := RingBuffer.new (input.logLines.getD 1000)
      let meta : PRecord :=
        { token := s1.nextToken, id := id, binaryPath := binaryPath,
          configPath := configPath, workDir := workDir, args := args,
          env := env, state := PState.running o.pid o.now,
          logBuffer := logBuffer }
      let s2 : SupState :=
        { s1 with processes := mapSet s1.processes id meta,
                  nextToken := s1.nextToken + 1 }
      (s2, effs0 ++ [Effect.mkdir workDir,
                     Effect.writeFile configPath content,
                     Effect.spawn (binaryPath :: args) workDir], .ok meta)

/-- `typeof v === "object"`: true for null, arrays and objects. -/
def jsTypeofObject : JVal → Bool
  | .jnull => true
  | .jarr _ => true
  | .jobj _ => true
  | _ => false

/-- JavaScript truthiness of a JSON value. -/
def jsTruthy : JVal → Bool
  | .jnull => false
  | .jbool b => b
  | .jnum n => !(n == 0)
  | .jstr s => !(s == "")
  | .jarr _ => true
  | .jobj _ => true

/-- Property read `body.k`; `none` models `undefined`.  (Arrays expose only
index properties to the names the validator reads, so named lookups on
non-objects yield `undefined`.) -/
def jsGet : JVal → String → Option JVal
  | .jobj kvs, k => (kvs.find? (fun p => p.1 == k)).map (·.2)
  | _, _ => none

/-- `Number(v)` for JSON values, at integer granularity (fractional string
or numeric literals are outside the model; the validator floors anyway). -/
def jsToNumber : JVal → JSNum
  | .jnull => .num 0
  | .jbool b => .num (if b then 1 else 0)
  | .jnum n => .num n
  | .jstr s =>
    if s.trim = "" then .num 0
    else match s.trim.toInt? with
      | some n => .num n
      | none => .nan
  | .jarr [] => .num 0
  | .jarr [x] => jsToNumber x
  | .jarr (_ :: _ :: _) => .nan
  | .jobj _ => .nan

/-- The shared shape of the `id` / `binaryPath` / `configToml` checks:
`typeof body.k !== "string" || !body.k` throws; absent stays absent. -/
def vOptStr (body : JVal) (k : String) (msg : String) :
    Except HttpError (Option String) :=
  match jsGet body k with
  | none => .ok none
  | some (.jstr s) => if s = "" then .error ⟨400, msg⟩ else .ok (some s)
  | some _ => .error ⟨400, msg⟩

/-- `typeof body.config !== "object"` throws; null and arrays pass. -/
def vConfig (body : JVal) : Except HttpError (Option JVal) :=
  match jsGet body "config" with
  | none => .ok none
  | some v => if jsTypeofObject v then .ok (some v)
              else .error ⟨400, "config must be object"⟩

/-- `typeof body.env !== "object"` throws; the retained value is used only
through object spread, so it is stored as its entry list. -/
def vEnv (body : JVal) : Except HttpError (Option (List (String × JVal))) :=
  match jsGet body "env" with
  | none => .ok none
  | some v => if jsTypeofObject v then .ok (some (jsEntries v))
              else .error ⟨400, "env must be object"⟩

/-- `Array.isArray(args) && args.every(v => typeof v === "string")`. -/
def allStrings : List JVal → Option (List String)
  | [] => some []
  | .jstr s :: rest => (allStrings rest).map (fun ss => s :: ss)
  | _ :: _ => none

def vArgs (body : JVal) : Except HttpError (Option (List String)) :=
  match jsGet body "args" with
  | none => .ok none
  | some (.jarr xs) =>
    match allStrings xs with
    | some ss => .ok (some ss)
    | none => .error ⟨400, "args must be string[]"⟩
  | some _ => .error ⟨400, "args must be string[]"⟩

/-- `const n = Number(body.logLines); if (!Number.isFinite(n) || n < 10)
throw; out.logLines = Math.floor(n)`. -/
def vLogLines (body : JVal) : Except HttpError (Option Nat) :=
  match jsGet body "logLines" with
  | none => .ok none
  | some v =>
    match jsToNumber v with
    | .nan => .error ⟨400, "logLines must be number >= 10"⟩
    | .num n => if n < 10 then .error ⟨400, "logLines must be number >= 10"⟩
                else .ok (some n.toNat)

/-- `validateCreateBody(body)`: field-by-field checks in source order, then
the final `!out.configToml && !out.config` guard (a present `configToml` is
a non-empty string, hence truthy; a present `config` is falsy only when it
is null). -/
def validateCreateBody (body : JVal) : Except HttpError CreateInput :=
  if !(jsTruthy body) || !(jsTypeofObject body) then
    .error ⟨400, "body must be object"⟩
  else
    match vOptStr body "id" "id must be non-empty string" with
    | .error e => .error e
    | .ok idOut =>
    match vOptStr body "binaryPath" "binaryPath must be string" with
    | .error e => .error e
    | .ok bp =>
    match vOptStr body "configToml" "configToml must be string" with
    | .error e => .error e
    | .ok ct =>
    match vConfig body with
    | .error e => .error e
    | .ok cfg =>
    match vEnv body with
    | .error e => .error e
    | .ok envOut =>
    match vArgs body with
    | .error e => .error e
    | .ok argsOut =>
    match vLogLines body with
    | .error e => .error e
    | .ok ll =>
      let rep := match jsGet body "replaceIfExists" with
        | none => false
        | some v => jsTruthy v
      let cfgFalsy := match cfg with
        | none => true
        | some .jnull => true
        | some _ => false
      if ct.isNone && cfgFalsy then
        .error ⟨400, "either configToml or config must be provided"⟩
      else
        .ok { id := idOut, binaryPath := bp, configToml := ct, config := cfg,
              env := envOut, args := argsOut, logLines := ll,
              replaceIfExists := rep }

/-- The `POST /frps` route: validate the JSON body, then `create`. -/
def handleCreateRequest (s : SupState) (body : JVal) (o : CreateOracle) :
    SupState × List Effect × Except HttpError PRecord :=
  match validateCreateBody body with
  | .error e => (s, [], .error e)
  | .ok input => createModel s input o

/-- One asynchronous turn of the supervisor: a caller request (`create` or
`stop`) or an exit-watcher completion. -/
inductive SupStep where
  | watcher (ev : WatcherEvent)
  | stopReq (id : String) (force : Bool) (timeoutMs : Nat)
      (ev : Option WatcherEvent)
  | createReq (input : CreateInput) (o : CreateOracle)

/-- The state reached after one supervisor step. -/
def applyStep (s : SupState) : SupStep → SupState
  | .watcher ev => watcherFire s ev
  | .stopReq id force t ev => (stopModel s id force t ev).1
  | .createReq input o => (createModel s input o).1

/-- Find the record with allocation stamp `t` (record identity across
steps). -/
def findToken (s : SupState) (t : Nat) : Option PRecord :=
  (s.processes.find? (fun p => p.2.token == t)).map (·.2)

/-- Allocation stamps are pairwise distinct and below the allocator
cursor — maintained by `create`, the only allocation site. -/
def TokWf (s : SupState) : Prop :=
  (s.processes.map (fun p => p.2.token)).Nodup
  ∧ ∀ p ∈ s.processes, p.2.token < s.nextToken

/-- C7: `stop` with an id not present in the registry returns false and
mutates nothing (state unchanged, no signal sent); `stop` with an id whose
record is already exited returns true immediately with no signal
delivery. -/
theorem claim_C7_stop_unknown_or_exited (s : SupState) (id : String)
    (force : Bool) (timeoutMs : Nat) (ev : Option WatcherEvent) :
    (lookupId s.processes id = none →
      stopModel s id force timeoutMs ev = (s, [], false))
    ∧ (∀ r, lookupId s.processes id = some r → r.state.isExited = true →
      stopModel s id force timeoutMs ev = (s, [], true)) := by
  constructor
  · intro h
    simp [stopModel, h]
  · intro r h hex
    cases hst : r.state with
    | running pid st =>
      rw [hst] at hex
      simp [PState.isExited] at hex
    | exited a b c d =>
      simp [stopModel, h, hst]

/-- Witness for C7: a one-record registry; stop of an unknown id returns
false untouched, stop of the exited record returns true with no signal. -/
theorem claim_C7_witness :
    stopModel
        { runtimeRoot := "/rt",
          processes := [("a",
            { token := 0, id := "a", binaryPath := "frps",
              configPath := "/rt/frps-a/frps.toml", workDir := "/rt/frps-a",
              args := ["-c", "/rt/frps-a/frps.toml"], env := [],
              state := PState.exited 1 2 (some 0) none,
              logBuffer := RingBuffer.new 10 })],
          nextToken := 1 }
        "missing" false 3000 none
      = ({ runtimeRoot := "/rt",
           processes := [("a",
             { token := 0, id := "a", binaryPath := "frps",
               configPath := "/rt/frps-a/frps.toml", workDir := "/rt/frps-a",
               args := ["-c", "/rt/frps-a/frps.toml"], env := [],
               state := PState.exited 1 2 (some 0) none,
               logBuffer := RingBuffer.new 10 })],
           nextToken := 1 }, [], false) :=
  (claim_C7_stop_unknown_or_exited _ "missing" false 3000 none).1 rfl

theorem token_unique (m : List (String × PRecord))
    (h : (m.map (fun p => p.2.token)).Nodup) :
    ∀ p1, p1 ∈ m → ∀ p2, p2 ∈ m → p1.2.token = p2.2.token → p1.2 = p2.2 := by
  induction m with
  | nil => simp
  | cons q m ih =>
    simp only [List.map_cons, List.nodup_cons] at h
    obtain ⟨hq, hm⟩ := h
    intro p1 hp1 p2 hp2 htok
    rcases List.mem_cons.mp hp1 with h1 | h1
    · rcases List.mem_cons.mp hp2 with h2 | h2
      · rw [h1, h2]
      · rw [h1] at htok ⊢
        exact absurd (by rw [htok]; exact List.mem_map_of_mem _ h2) hq
    · rcases List.mem_cons.mp hp2 with h2 | h2
      · rw [h2] at htok ⊢
        exact absurd (by rw [← htok]; exact List.mem_map_of_mem _ h1) hq
      · exact ih hm p1 h1 p2 h2 htok

theorem mapSet_mem (m : List (String × PRecord)) (k : String) (v : PRecord)
    (k' : String) (r' : PRecord) (h : (k', r') ∈ mapSet m k v) :
    r' = v ∨ ∃ k0, (k0, r') ∈ m := by
  unfold mapSet at h
  split at h
  · rcases List.mem_map.mp h with ⟨p, hp, heq⟩
    by_cases hk : (p.1 == k) = true
    · rw [if_pos hk] at heq
      injection heq with h1 h2
      exact Or.inl h2.symm
    · rw [if_neg hk] at heq
      exact Or.inr ⟨k', by rw [← heq]; exact hp⟩
  · rcases List.mem_append.mp h with h | h
    · exact Or.inr ⟨k', h⟩
    · simp only [List.mem_singleton, Prod.mk.injEq] at h
      exact Or.inl h.2

theorem lookupId_mem (m : List (String × PRecord)) (id : String) (v : PRecord)
    (h : lookupId m id = some v) : ∃ k, (k, v) ∈ m := by
  unfold lookupId at h
  rcases hf : m.find? (fun p => p.1 == id) with _ | pr
  · rw [hf] at h
    simp at h
  · rw [hf] at h
    simp only [Option.map] at h
    injection h with h
    subst h
    exact ⟨pr.1, by simpa using List.mem_of_find?_eq_some hf⟩

theorem findToken_mem (s : SupState) (t : Nat) (r : PRecord)
    (h : findToken s t = some r) :
    ∃ k, (k, r) ∈ s.processes ∧ r.token = t := by
  unfold findToken at h
  rcases hf : s.processes.find? (fun p => p.2.token == t) with _ | pr
  · rw [hf] at h
    simp at h
  · rw [hf] at h
    simp only [Option.map] at h
    injection h with h
    subst h
    refine ⟨pr.1, by simpa using List.mem_of_find?_eq_some hf, ?_⟩
    have := List.find?_some hf
    simpa using this

theorem watcherFire_mem (s : SupState) (ev : WatcherEvent) (k' : String)
    (r' : PRecord) (h : (k', r') ∈ (watcherFire s ev).processes) :
    ∃ k0 r0, (k0, r0) ∈ s.processes
      ∧ (r' = r0 ∨ (r'.token = r0.token ∧ r'.state.isExited = true)) := by
  unfold watcherFire at h
  rcases hl : lookupId s.processes ev.id with _ | prev
  · rw [hl] at h
    exact ⟨k', r', h, Or.inl rfl⟩
  · rw [hl] at h
    simp only at h
    rcases mapSet_mem _ _ _ _ _ h with heq | ⟨k0, h0⟩
    · obtain ⟨kp, hkp⟩ := lookupId_mem _ _ _ hl
      refine ⟨kp, prev, hkp, Or.inr ⟨?_, ?_⟩⟩ <;> rw [heq] <;> rfl
    · exact ⟨k0, r', h0, Or.inl rfl⟩

theorem watcherFire_root_token (s : SupState) (ev : WatcherEvent) :
    (watcherFire s ev).runtimeRoot = s.runtimeRoot
    ∧ (watcherFire s ev).nextToken = s.nextToken := by
  unfold watcherFire
  split <;> exact ⟨rfl, rfl⟩

theorem stopModel_state (s : SupState) (id : String) (force : Bool) (t : Nat)
    (ev : Option WatcherEvent) :
    (stopModel s id force t ev).1 = s
    ∨ ∃ e, (stopModel s id force t ev).1 = watcherFire s e := by
  unfold stopModel
  split
  · exact Or.inl rfl
  · split
    · exact Or.inl rfl
    · cases ev with
      | none =>
        refine Or.inl ?_
        dsimp only
        split
        · rfl
        · split
          · split <;> rfl
          · rfl
      | some e =>
        refine Or.inr ⟨e, ?_⟩
        dsimp only
        split
        · rfl
        · split
          · split <;> rfl
          · rfl

/-- The record `create` builds on its success path (same fields as the
`meta` literal inside `createModel`, relative to the base state `sb`
reached after the optional replace-stop). -/
def newRecord (sb : SupState) (input : CreateInput) (o : CreateOracle) :
    PRecord :=
  let id := input.id.getD o.uuid
  let binaryPath := input.binaryPath.getD "frps"
  let workDir := sb.runtimeRoot ++ "/frps-" ++ id
  let configPath := workDir ++ "/frps.toml"
  let args := match input.args with
    | some l => if l.length > 0 then l else ["-c", configPath]
    | none => ["-c", configPath]
  { token := sb.nextToken, id := id, binaryPath := binaryPath,
    configPath := configPath, workDir := workDir, args := args,
    env := spreadMerge o.hostEnv (input.env.getD []),
    state := PState.running o.pid o.now,
    logBuffer := RingBuffer.new (input.logLines.getD 1000) }

theorem createModel_state (s : SupState) (input : CreateInput)
    (o : CreateOracle) :
    (createModel s input o).1 = s
    ∨ (∃ e, (createModel s input o).1 = watcherFire s e)
    ∨ (∃ sb, (sb = s ∨ ∃ e, sb = watcherFire s e)
        ∧ (createModel s input o).1
            = { runtimeRoot := sb.runtimeRoot,
                processes := mapSet sb.processes (input.id.getD o.uuid)
                  (newRecord sb input o),
                nextToken := sb.nextToken + 1 }) := by
  by_cases hc : (lookupId s.processes (input.id.getD o.uuid)).isSome = true
  · cases hb : input.replaceIfExists with
    | false =>
      refine Or.inl ?_
      simp [createModel, hc, hb]
    | true =>
      cases hass : assertBinaryExists o (input.binaryPath.getD "frps") with
      | error e =>
        rcases stopModel_state s (input.id.getD o.uuid) true 1000 o.stopEv
          with hs | ⟨e2, hs⟩
        · refine Or.inl ?_
          simp [createModel, hc, hb, hass, hs]
        · refine Or.inr (Or.inl ⟨e2, ?_⟩)
          simp [createModel, hc, hb, hass, hs]
      | ok u =>
        refine Or.inr (Or.inr
          ⟨(stopModel s (input.id.getD o.uuid) true 1000 o.stopEv).1,
           stopModel_state s (input.id.getD o.uuid) true 1000 o.stopEv, ?_⟩)
        simp [createModel, newRecord, hc, hb, hass]
  · have hc' : (lookupId s.processes (input.id.getD o.uuid)).isSome = false := by
      rwa [Bool.not_eq_true] at hc
    cases hass : assertBinaryExists o (input.binaryPath.getD "frps") with
    | error e =>
      refine Or.inl ?_
      simp [createModel, hc', hass]
    | ok u =>
      refine Or.inr (Or.inr ⟨s, Or.inl rfl, ?_⟩)
      simp [createModel, newRecord, hc', hass]

/-- C8: a record's state transition is one-directional from Running to
Exited and never reverses.  Across any single supervisor step (exit
notification, stop call, or create call), a record present before and
after (identified by its allocation stamp) either keeps its state
unchanged or is (still) exited — in particular, once exited it stays
exited under repeated exit notifications and stop calls — and an exit
notification never duplicates or removes registry entries. -/
theorem claim_C8_exited_permanent (s : SupState) (step : SupStep)
    (hwf : TokWf s) (t : Nat) (r r' : PRecord)
    (hb : findToken s t = some r)
    (ha : findToken (applyStep s step) t = some r') :
    (r'.state = r.state ∨ r'.state.isExited = true)
    ∧ (r.state.isExited = true → r'.state.isExited = true)
    ∧ (∀ ev, step = SupStep.watcher ev →
        (applyStep s step).processes.map Prod.fst
          = s.processes.map Prod.fst) := by
  obtain ⟨hnodup, hbound⟩ := hwf
  obtain ⟨k, hkmem, htok⟩ := findToken_mem _ _ _ hb
  obtain ⟨k', hkmem', htok'⟩ := findToken_mem _ _ _ ha
  have hid : ∀ kx, (kx, r') ∈ s.processes → r' = r := fun kx hmem =>
    token_unique s.processes hnodup (kx, r') hmem (k, r) hkmem
      (by rw [htok', htok])
  have hwatch : ∀ e kx, (kx, r') ∈ (watcherFire s e).processes →
      r' = r ∨ r'.state.isExited = true := by
    intro e kx hmem
    obtain ⟨k0, r0, h0, hrel⟩ := watcherFire_mem s e kx r' hmem
    rcases hrel with heq | ⟨ht0, hex⟩
    · left
      have := token_unique s.processes hnodup (k0, r0) h0 (k, r) hkmem
        (by rw [← heq, htok', htok])
      rw [heq]
      exact this
    · exact Or.inr hex
  have hcore : r' = r ∨ r'.state.isExited = true := by
    cases step with
    | watcher ev =>
      exact hwatch ev k' (by simpa [applyStep] using hkmem')
    | stopReq id force tm ev =>
      have hmem2 : (k', r') ∈ (stopModel s id force tm ev).1.processes := by
        simpa [applyStep] using hkmem'
      rcases stopModel_state s id force tm ev with hs | ⟨e, hs⟩
      · rw [hs] at hmem2
        exact Or.inl (hid k' hmem2)
      · rw [hs] at hmem2
        exact hwatch e k' hmem2
    | createReq input o =>
      have hmem2 : (k', r') ∈ (createModel s input o).1.processes := by
        simpa [applyStep] using hkmem'
      rcases createModel_state s input o with hs | ⟨e, hs⟩ | ⟨sb, hsb, hs⟩
      · rw [hs] at hmem2
        exact Or.inl (hid k' hmem2)
      · rw [hs] at hmem2
        exact hwatch e k' hmem2
      · rw [hs] at hmem2
        simp only at hmem2
        rcases mapSet_mem _ _ _ _ _ hmem2 with heq | ⟨k0, h0⟩
        · -- r' would be the freshly allocated record: impossible, its
          -- stamp is the allocator cursor, above every live stamp
          have hnt : sb.nextToken = s.nextToken := by
            rcases hsb with rfl | ⟨e, rfl⟩
            · rfl
            · exact (watcherFire_root_token s e).2
          have htlt : t < s.nextToken := by
            have := hbound (k, r) hkmem
            simpa [htok] using this
          have : r'.token = s.nextToken := by
            rw [heq]
            show sb.nextToken = s.nextToken
            exact hnt
          rw [htok'] at this
          omega
        · rcases hsb with rfl | ⟨e, rfl⟩
          · exact Or.inl (hid k0 h0)
          · exact hwatch e k0 h0
  refine ⟨?_, ?_, ?_⟩
  · rcases hcore with rfl | hex
    · exact Or.inl rfl
    · exact Or.inr hex
  · intro hex
    rcases hcore with rfl | hex'
    · exact hex
    · exact hex'
  · intro ev hstep
    subst hstep
    simp only [applyStep]
    unfold watcherFire
    rcases hl : lookupId s.processes ev.id with _ | prev
    · rfl
    · simp only
      unfold mapSet
      have hany : s.processes.any (fun p => p.1 == ev.id) = true := by
        unfold lookupId at hl
        rcases hf : s.processes.find? (fun p => p.1 == ev.id) with _ | pr
        · rw [hf] at hl
          simp at hl
        · exact List.any_eq_true.mpr
            ⟨pr, List.mem_of_find?_eq_some hf, by simpa using List.find?_some hf⟩
      rw [if_pos hany, List.map_map]
      refine List.map_congr_left ?_
      intro p hp
      by_cases hk : (p.1 == ev.id) = true
      · simp only [Function.comp, hk, if_pos]
        have : p.1 = ev.id := by
          simpa using hk
        simp [this]
      · simp only [Function.comp]
        rw [if_neg hk]

/-- Concrete registry for the C8 witness: one running record. -/
def c8Rec : PRecord :=
  { token := 0, id := "a", binaryPath := "frps",
    configPath := "/rt/frps-a/frps.toml", workDir := "/rt/frps-a",
    args := ["-c", "/rt/frps-a/frps.toml"], env := [],
    state := PState.running 42 5, logBuffer := RingBuffer.new 10 }

def c8State : SupState :=
  { runtimeRoot := "/rt", processes := [("a", c8Rec)], nextToken := 1 }

def c8Step : SupStep := SupStep.watcher ⟨"a", 5, 9, some 0⟩

def c8RecExited : PRecord :=
  { c8Rec with state := PState.exited 5 9 (some 0) none }

/-- Witness for C8: the watcher fires on the single running record; the
transition goes to exited and the registry's id list is unchanged. -/
theorem claim_C8_witness :
    (c8RecExited.state = c8Rec.state ∨ c8RecExited.state.isExited = true)
    ∧ (applyStep c8State c8Step).processes.map Prod.fst
        = c8State.processes.map Prod.fst := by
  have h := claim_C8_exited_permanent c8State c8Step
    ⟨by decide, by decide⟩ 0 c8Rec c8RecExited rfl rfl
  exact ⟨h.1, h.2.2 _ rfl⟩

theorem vOptStr_error_status (body : JVal) (k msg : String) (e : HttpError)
    (h : vOptStr body k msg = Except.error e) : e.status = 400 := by
  unfold vOptStr at h
  split at h
  · exact absurd h (by simp)
  · split at h
    · injection h with h
      subst h
      rfl
    · exact absurd h (by simp)
  · injection h with h
    subst h
    rfl

theorem vEnv_error_status (body : JVal) (e : HttpError)
    (h : vEnv body = Except.error e) : e.status = 400 := by
  unfold vEnv at h
  split at h
  · exact absurd h (by simp)
  · split at h
    · exact absurd h (by simp)
    · injection h with h
      subst h
      rfl

theorem vArgs_error_status (body : JVal) (e : HttpError)
    (h : vArgs body = Except.error e) : e.status = 400 := by
  unfold vArgs at h
  split at h
  · exact absurd h (by simp)
  · split at h
    · exact absurd h (by simp)
    · injection h with h
      subst h
      rfl
  · injection h with h
    subst h
    rfl

theorem vLogLines_error_status (body : JVal) (e : HttpError)
    (h : vLogLines body = Except.error e) : e.status = 400 := by
  unfold vLogLines at h
  split at h
  · exact absurd h (by simp)
  · split at h
    · injection h with h
      subst h
      rfl
    · split at h
      · injection h with h
        subst h
        rfl
      · exact absurd h (by simp)

theorem validateCreateBody_absent (body : JVal)
    (h1 : jsGet body "configToml" = none) (h2 : jsGet body "config" = none) :
    ∃ e, validateCreateBody body = Except.error e ∧ e.status = 400 := by
  have hct : vOptStr body "configToml" "configToml must be string"
      = Except.ok none := by
    unfold vOptStr
    rw [h1]
  have hcfg : vConfig body = Except.ok none := by
    unfold vConfig
    rw [h2]
  unfold validateCreateBody
  split
  · exact ⟨_, rfl, rfl⟩
  · rcases hid : vOptStr body "id" "id must be non-empty string"
        with e | idOut
    · refine ⟨e, ?_, vOptStr_error_status _ _ _ _ hid⟩
      simp [hid]
    · rcases hbp : vOptStr body "binaryPath" "binaryPath must be string"
          with e | bp
      · refine ⟨e, ?_, vOptStr_error_status _ _ _ _ hbp⟩
        simp [hid, hbp]
      · rcases henv : vEnv body with e | envOut
        · refine ⟨e, ?_, vEnv_error_status _ _ henv⟩
          simp [hid, hbp, hct, hcfg, henv]
        · rcases hargs : vArgs body with e | argsOut
          · refine ⟨e, ?_, vArgs_error_status _ _ hargs⟩
            simp [hid, hbp, hct, hcfg, henv, hargs]
          · rcases hll : vLogLines body with e | ll
            · refine ⟨e, ?_, vLogLines_error_status _ _ hll⟩
              simp [hid, hbp, hct, hcfg, henv, hargs, hll]
            · refine ⟨⟨400, "either configToml or config must be provided"⟩,
                ?_, rfl⟩
              simp [hid, hbp, hct, hcfg, henv, hargs, hll]

/-- C5: a create request that carries neither raw configuration text nor a
structured configuration object fails with a validation error (HTTP 400)
and performs no side effects: the state is unchanged and no host effect —
no directory creation, no file write, no spawn — is emitted, because
`validateCreateBody` throws before `manager.create` is entered. -/
theorem claim_C5_missing_config (s : SupState) (body : JVal)
    (o : CreateOracle) (h1 : jsGet body "configToml" = none)
    (h2 : jsGet body "config" = none) :
    ∃ e, handleCreateRequest s body o = (s, [], Except.error e)
      ∧ e.status = 400 := by
  obtain ⟨e, hv, hs⟩ := validateCreateBody_absent body h1 h2
  exact ⟨e, by simp [handleCreateRequest, hv], hs⟩

def c5State : SupState := { runtimeRoot := "/rt", processes := [], nextToken := 0 }

def c5Oracle : CreateOracle :=
  { uuid := "u", statExists := fun _ => true,
    bunWhich := fun _ => some "/usr/bin/frps", pid := 7, now := 100,
    hostEnv := [], stopEv := none }

/-- Witness for C5: a body with only an id — validation rejects it, the
state is untouched and the effect trace is empty. -/
theorem claim_C5_witness :
    (handleCreateRequest c5State (JVal.jobj [("id", JVal.jstr "x")])
        c5Oracle).1 = c5State
    ∧ (handleCreateRequest c5State (JVal.jobj [("id", JVal.jstr "x")])
        c5Oracle).2.1 = ([] : List Effect) := by
  obtain ⟨e, hv, hs⟩ := claim_C5_missing_config c5State
    (JVal.jobj [("id", JVal.jstr "x")]) c5Oracle rfl rfl
  rw [hv]
  exact ⟨rfl, rfl⟩

theorem stopModel_effects (s : SupState) (id : String) (force : Bool)
    (t : Nat) (ev : Option WatcherEvent) :
    ∀ ef ∈ (stopModel s id force t ev).2.1, ef.isFs = false := by
  unfold stopModel
  split
  · intro ef hef
    simp at hef
  · split
    · intro ef hef
      simp at hef
    · cases ev with
      | none =>
        dsimp only
        split
        · intro ef hef
          simp at hef
          subst hef
          rfl
        · split
          · split
            · intro ef hef
              simp at hef
              rcases hef with rfl | rfl <;> rfl
            · intro ef hef
              simp at hef
              subst hef
              rfl
          · intro ef hef
            simp at hef
            subst hef
            rfl
      | some e =>
        dsimp only
        split
        · intro ef hef
          simp at hef
          subst hef
          rfl
        · split
          · split
            · intro ef hef
              simp at hef
              rcases hef with rfl | rfl <;> rfl
            · intro ef hef
              simp at hef
              subst hef
              rfl
          · intro ef hef
            simp at hef
            subst hef
            rfl

theorem assertBinaryExists_unresolved (o : CreateOracle) (bp : String)
    (h : ((bp.data.contains '/' || bp.data.contains (Char.ofNat 92)) = true
            ∧ o.statExists bp = false)
       ∨ ((bp.data.contains '/' || bp.data.contains (Char.ofNat 92)) = false
            ∧ o.bunWhich bp = none)) :
    ∃ e, assertBinaryExists o bp = Except.error e ∧ e.status = 400 := by
  unfold assertBinaryExists
  rcases h with ⟨hsep, hstat⟩ | ⟨hsep, hwh⟩
  · refine ⟨⟨400, "binary not found at path: " ++ bp⟩, ?_, rfl⟩
    rw [if_pos hsep, if_neg (by simp [hstat])]
  · refine ⟨⟨400, "binary not found in PATH: " ++ bp⟩, ?_, rfl⟩
    rw [if_neg (by rw [hsep]; simp), hwh]

def c6Old : PRecord :=
  { token := 0, id := "a", binaryPath := "frps",
    configPath := "/rt/frps-a/frps.toml", workDir := "/rt/frps-a",
    args := ["-c", "/rt/frps-a/frps.toml"], env := [],
    state := PState.running 42 5, logBuffer := RingBuffer.new 10 }

def c6State : SupState :=
  { runtimeRoot := "/rt", processes := [("a", c6Old)], nextToken := 1 }

def c6Input : CreateInput :=
  { id := some "a", binaryPath := some "/nonexistent/frps",
    configToml := some "bindPort = 7000\n", config := none, env := none,
    args := none, logLines := none, replaceIfExists := false }

def c6Oracle : CreateOracle :=
  { uuid := "u", statExists := fun _ => false, bunWhich := fun _ => none,
    pid := 7, now := 100, hostEnv := [], stopEv := none }

/-- C6 counterexample: this request's binary locator (a path that does not
exist) does not resolve, yet `create` fails with the 409 conflict error —
the duplicate-id check runs first — not with BinaryNotFoundError (400). -/
theorem claim_C6_counterexample :
    assertBinaryExists c6Oracle "/nonexistent/frps"
        = Except.error ⟨400, "binary not found at path: /nonexistent/frps"⟩
    ∧ (createModel c6State c6Input c6Oracle).2.2
        = Except.error ⟨409, "frps with id a already exists"⟩ := by
  constructor
  · rfl
  · rfl

/-- C6 amended: provided the request does not fail earlier with the
duplicate-id conflict (the id is free, or replaceIfExists is set), a
create whose binary locator does not resolve fails with
BinaryNotFoundError (HTTP 400) before any filesystem side effect: the
emitted effect trace contains no directory creation and no file write
(and hence no spawn either — only the replace-path kill signals may
appear). -/
theorem claim_C6_amended_binary_unresolved (s : SupState)
    (input : CreateInput) (o : CreateOracle)
    (hnoconf : (lookupId s.processes (input.id.getD o.uuid)).isSome = false
      ∨ input.replaceIfExists = true)
    (hbin : (((input.binaryPath.getD "frps").data.contains '/'
              || (input.binaryPath.getD "frps").data.contains (Char.ofNat 92))
                = true
            ∧ o.statExists (input.binaryPath.getD "frps") = false)
       ∨ (((input.binaryPath.getD "frps").data.contains '/'
              || (input.binaryPath.getD "frps").data.contains (Char.ofNat 92))
                = false
            ∧ o.bunWhich (input.binaryPath.getD "frps") = none)) :
    ∃ e, (createModel s input o).2.2 = Except.error e ∧ e.status = 400
      ∧ ∀ ef ∈ (createModel s input o).2.1, ef.isFs = false := by
  obtain ⟨e0, hass, hst⟩ := assertBinaryExists_unresolved o _ hbin
  by_cases hc : (lookupId s.processes (input.id.getD o.uuid)).isSome = true
  · have hr : input.replaceIfExists = true := by
      rcases hnoconf with hcf | hr
      · rw [hc] at hcf
        exact absurd hcf (by simp)
      · exact hr
    refine ⟨e0, ?_, hst, ?_⟩
    · simp [createModel, hc, hr, hass]
    · intro ef hef
      simp only [createModel, hc, hr, hass] at hef
      simp at hef
      exact stopModel_effects _ _ _ _ _ ef hef
  · have hc' : (lookupId s.processes (input.id.getD o.uuid)).isSome = false := by
      rwa [Bool.not_eq_true] at hc
    refine ⟨e0, ?_, hst, ?_⟩
    · simp [createModel, hc', hass]
    · intro ef hef
      simp only [createModel, hc', hass] at hef
      simp at hef

/-- Witness for the amended C6: id free, bare name that `Bun.which` cannot
resolve — error 400 and an effect trace with no filesystem effect. -/
theorem claim_C6_witness :
    ((createModel c5State
        { id := some "b", binaryPath := some "missing-binary",
          configToml := some "bindPort = 7000\n", config := none,
          env := none, args := none, logLines := none,
          replaceIfExists := false }
        c6Oracle).2.2.map (fun r => r.workDir))
      = Except.error ⟨400, "binary not found in PATH: missing-binary"⟩ := by
  obtain ⟨e, herr, hst, heff⟩ := claim_C6_amended_binary_unresolved c5State
    { id := some "b", binaryPath := some "missing-binary",
      configToml := some "bindPort = 7000\n", config := none,
      env := none, args := none, logLines := none, replaceIfExists := false }
    c6Oracle (Or.inl rfl) (Or.inr ⟨rfl, rfl⟩)
  rw [herr]
  have he : e = ⟨400, "binary not found in PATH: missing-binary"⟩ := by
    have h2 := herr
    rw [show (createModel c5State
        { id := some "b", binaryPath := some "missing-binary",
          configToml := some "bindPort = 7000\n", config := none,
          env := none, args := none, logLines := none,
          replaceIfExists := false } c6Oracle).2.2
      = Except.error ⟨400, "binary not found in PATH: missing-binary"⟩
      from rfl] at h2
    injection h2 with h2
    exact h2.symm
  rw [he]
  rfl

theorem stopModel_root (s : SupState) (id : String) (force : Bool) (t : Nat)
    (ev : Option WatcherEvent) :
    (stopModel s id force t ev).1.runtimeRoot = s.runtimeRoot
    ∧ (stopModel s id force t ev).1.nextToken = s.nextToken := by
  rcases stopModel_state s id force t ev with h | ⟨e, h⟩
  · rw [h]
    exact ⟨rfl, rfl⟩
  · rw [h]
    exact watcherFire_root_token s e

theorem stopModel_sigterm (s : SupState) (id : String) (force : Bool)
    (t : Nat) (ev : Option WatcherEvent) (rOld : PRecord) (pidOld st : Nat)
    (hlook : lookupId s.processes id = some rOld)
    (hst : rOld.state = PState.running pidOld st) :
    Effect.kill pidOld "SIGTERM" ∈ (stopModel s id force t ev).2.1 := by
  unfold stopModel
  simp only [hlook, hst]
  cases ev <;> dsimp only <;> split <;> try simp
  all_goals split <;> try simp
  all_goals split <;> simp

theorem find?_map_set (m : List (String × PRecord)) (k : String) (v : PRecord)
    (hany : m.any (fun p => p.1 == k) = true) :
    ((m.map (fun p => if p.1 == k then (k, v) else p)).find?
        (fun p => p.1 == k)).map (·.2) = some v := by
  induction m with
  | nil => simp at hany
  | cons p m ih =>
    by_cases hk : (p.1 == k) = true
    · simp only [List.map_cons, if_pos hk]
      rw [List.find?_cons_of_pos _ (by simp)]
      rfl
    · have hany2 : m.any (fun p => p.1 == k) = true := by
        simp only [List.any_cons, hk, Bool.false_or] at hany
        exact hany
      simp only [List.map_cons, if_neg hk]
      rw [List.find?_cons_of_neg _ (by simpa using hk)]
      exact ih hany2

theorem lookupId_mapSet_self (m : List (String × PRecord)) (k : String)
    (v : PRecord) : lookupId (mapSet m k v) k = some v := by
  unfold mapSet lookupId
  by_cases hany : m.any (fun p => p.1 == k) = true
  · rw [if_pos hany]
    exact find?_map_set m k v hany
  · rw [if_neg hany]
    have hnone : m.find? (fun p => p.1 == k) = none := by
      rw [List.find?_eq_none]
      intro p hp
      intro hpk
      exact hany (List.any_eq_true.mpr ⟨p, hp, hpk⟩)
    rw [List.find?_append, hnone]
    simp

/-- C2 amended: against an existing running record, `create` with the same
id and replaceIfExists = true (and a resolvable binary) force-stops the
prior process (a SIGTERM is sent to its pid, with a SIGKILL follow-up when
it survives the bounded wait) and installs a new record under that id with
Running state; the new record's working directory is the deterministic
per-id path runtimeRoot/frps-id — the same path the prior record used —
recreated in place, not a fresh distinct directory. -/
theorem claim_C2_amended_replace (s : SupState) (id : String)
    (rOld : PRecord) (input : CreateInput) (o : CreateOracle)
    (pidOld st : Nat)
    (hlook : lookupId s.processes id = some rOld)
    (hst : rOld.state = PState.running pidOld st)
    (hid : input.id = some id)
    (hrep : input.replaceIfExists = true)
    (hbin : assertBinaryExists o (input.binaryPath.getD "frps")
        = Except.ok ()) :
    (createModel s input o).2.2
        = Except.ok (newRecord (stopModel s id true 1000 o.stopEv).1 input o)
    ∧ (newRecord (stopModel s id true 1000 o.stopEv).1 input o).state
        = PState.running o.pid o.now
    ∧ (newRecord (stopModel s id true 1000 o.stopEv).1 input o).workDir
        = s.runtimeRoot ++ "/frps-" ++ id
    ∧ lookupId (createModel s input o).1.processes id
        = some (newRecord (stopModel s id true 1000 o.stopEv).1 input o)
    ∧ Effect.kill pidOld "SIGTERM" ∈ (createModel s input o).2.1 := by
  have hidg : input.id.getD o.uuid = id := by
    rw [hid]
    rfl
  have hc : (lookupId s.processes id).isSome = true := by
    rw [hlook]
    rfl
  have hmem := stopModel_sigterm s id true 1000 o.stopEv rOld pidOld st
    hlook hst
  refine ⟨?_, rfl, ?_, ?_, ?_⟩
  · simp [createModel, hidg, hc, hrep, hbin, newRecord]
  · simp [newRecord, hidg, (stopModel_root s id true 1000 o.stopEv).1]
  · have hproc : (createModel s input o).1.processes
        = mapSet (stopModel s id true 1000 o.stopEv).1.processes id
            (newRecord (stopModel s id true 1000 o.stopEv).1 input o) := by
      simp [createModel, hidg, hc, hrep, hbin, newRecord]
    rw [hproc]
    exact lookupId_mapSet_self _ _ _
  · simp only [createModel, hidg, hc, hrep, hbin, Bool.not_true,
      Bool.and_false]
    simp only [Bool.false_eq_true, if_false, if_true]
    exact List.mem_append_left _ hmem

def c2Old : PRecord :=
  { token := 0, id := "a", binaryPath := "frps",
    configPath := "/rt/frps-a/frps.toml", workDir := "/rt/frps-a",
    args := ["-c", "/rt/frps-a/frps.toml"], env := [],
    state := PState.running 42 5, logBuffer := RingBuffer.new 10 }

def c2State : SupState :=
  { runtimeRoot := "/rt", processes := [("a", c2Old)], nextToken := 1 }

def c2Input : CreateInput :=
  { id := some "a", binaryPath := none,
    configToml := some "bindPort = 7000\n", config := none, env := none,
    args := none, logLines := none, replaceIfExists := true }

def c2Oracle : CreateOracle :=
  { uuid := "u", statExists := fun _ => true,
    bunWhich := fun _ => some "/usr/bin/frps", pid := 43, now := 9,
    hostEnv := [], stopEv := none }

/-- C2 counterexample: replacing the running record "a" does install a new
Running record under the same id, but its working directory is exactly the
prior record's working directory (/rt/frps-a) — not a new, distinct one. -/
theorem claim_C2_counterexample :
    ((createModel c2State c2Input c2Oracle).2.2.map (fun r => r.workDir))
        = Except.ok c2Old.workDir
    ∧ ((createModel c2State c2Input c2Oracle).2.2.map (fun r => r.state))
        = Except.ok (PState.running 43 9) := by
  exact ⟨rfl, rfl⟩

/-- Witness for the amended C2, on the same concrete replace scenario. -/
theorem claim_C2_witness :
    (newRecord (stopModel c2State "a" true 1000 c2Oracle.stopEv).1 c2Input
        c2Oracle).workDir = "/rt" ++ "/frps-" ++ "a"
    ∧ Effect.kill 42 "SIGTERM" ∈ (createModel c2State c2Input c2Oracle).2.1 := by
  have h := claim_C2_amended_replace c2State "a" c2Old c2Input c2Oracle 42 5
    rfl rfl rfl rfl rfl
  exact ⟨h.2.2.1, h.2.2.2.2⟩

/-- A `ManagedProcessMeta` object on the JS heap.  The mutable structures a
record points to — its args array, env object and log RingBuffer — are
held by reference (heap addresses), exactly as in JS, so that the spread
copy `(\x7b ...p \x7d)` in `list()` copies the references, not the
structures.  (The state object is held by value: the supervisor never
mutates a state object in place, it only reassigns the field.) -/
structure MetaObj where
  id : String
  binaryPath : String
  configPath : String
  workDir : String
  args : Nat
  env : Nat
  state : PState
  logBuffer : Nat
deriving Repr, DecidableEq

instance : Inhabited MetaObj :=
  ⟨{ id := "", binaryPath := "", configPath := "", workDir := "",
     args := 0, env := 0, state := PState.running 0 0, logBuffer := 0 }⟩

/-- The JS heap and the supervisor registry: address-indexed stores for
meta objects, args arrays, env objects and ring buffers, plus the
`processes` map holding meta-object references. -/
structure JsStore where
  metas : List MetaObj
  arrays : List (List String)
  envs : List (List (String × String))
  rings : List RingBuffer
  registry : List (String × Nat)
deriving Repr, DecidableEq

/-- `get(id)`: `this.processes.get(id)` — the stored reference itself, no
copy of any kind. -/
def JsStore.getRef (st : JsStore) (id : String) : Option Nat :=
  (st.registry.find? (fun p => p.1 == id)).map (·.2)

/-- `list()`: `[...this.processes.values()].map((p) => (\x7b ...p \x7d))` —
allocate, for each registry entry, a fresh shallow copy of the record
object (a new address whose fields, including the args/env/logBuffer
references, are copied from the original) and return the new addresses. -/
def JsStore.list (st : JsStore) : JsStore × List Nat :=
  let vals := st.registry.map (fun p => st.metas.getD p.2 default)
  let base := st.metas.length
  ({ st with metas := st.metas ++ vals },
   (List.range vals.length).map (fun i => base + i))

/-- A caller mutating "the returned data": overwrite fields of the meta
object at address `a` (no-op on a dangling address). -/
def JsStore.metaUpdate (st : JsStore) (a : Nat) (f : MetaObj → MetaObj) :
    JsStore :=
  { st with metas := match st.metas.get? a with
      | some m => st.metas.set a (f m)
      | none => st.metas }

/-- A caller mutating a returned record's args array in place through the
shared reference. -/
def JsStore.arrayPush (st : JsStore) (a : Nat) (x : String) : JsStore :=
  { st with arrays := match st.arrays.get? a with
      | some l => st.arrays.set a (l ++ [x])
      | none => st.arrays }

/-- One registry record as the supervisor observes it: the meta object and
the structures its reference fields point to. -/
structure RecView where
  id : String
  meta : Option MetaObj
  argsArr : Option (List String)
  envObj : Option (List (String × String))
  ring : Option RingBuffer
deriving Repr, DecidableEq

/-- The supervisor's internal state as it observes it: every registry
record dereferenced together with the structures its fields point to. -/
def JsStore.view (st : JsStore) : List RecView :=
  st.registry.map (fun p =>
    match st.metas.get? p.2 with
    | none => { id := p.1, meta := none, argsArr := none, envObj := none,
                ring := none }
    | some m => { id := p.1, meta := some m,
                  argsArr := st.arrays.get? m.args,
                  envObj := st.envs.get? m.env,
                  ring := st.rings.get? m.logBuffer })

/-- Registry references point into the meta heap. -/
def JsStore.Wf (st : JsStore) : Prop :=
  ∀ p ∈ st.registry, p.2 < st.metas.length

def c1Meta : MetaObj :=
  { id := "x", binaryPath := "frps", configPath := "/rt/frps-x/frps.toml",
    workDir := "/rt/frps-x", args := 0, env := 0,
    state := PState.running 1 2, logBuffer := 0 }

def c1Store : JsStore :=
  { metas := [c1Meta], arrays := [["-c", "/rt/frps-x/frps.toml"]],
    envs := [[("A", "1")]], rings := [RingBuffer.new 10],
    registry := [("x", 0)] }

/-- C1 counterexample.  `get("x")` returns the very reference the registry
stores, and writing a field through it changes the supervisor's internal
state; moreover the shallow copies made by `list()` share their args array
with the original, so an in-place mutation through a copy's args reference
also changes the internal state.  The returned data is therefore not an
independent copy. -/
theorem claim_C1_counterexample :
    JsStore.getRef c1Store "x" = some 0
    ∧ (c1Store.metaUpdate 0 (fun m => { m with workDir := "changed" })).view
        ≠ c1Store.view
    ∧ ((c1Store.list).1.metas.get? 1).map (fun m => m.args) = some 0
    ∧ ((c1Store.list).1.arrayPush 0 "evil").view ≠ (c1Store.list).1.view := by
  refine ⟨rfl, by decide, by decide, by decide⟩

theorem view_metaUpdate_ne (st : JsStore) (a : Nat) (f : MetaObj → MetaObj)
    (h : ∀ p ∈ st.registry, p.2 ≠ a) :
    (st.metaUpdate a f).view = st.view := by
  unfold JsStore.metaUpdate
  rcases hg : st.metas.get? a with _ | m
  · simp only [hg]
  · simp only [hg]
    unfold JsStore.view
    apply List.map_congr_left
    intro p hp
    simp only
    rw [List.get?_set_ne _ _ (Ne.symm (h p hp))]

/-- C1 amended: `get(id)` returns the live internal record reference, not a
copy; `list()` returns freshly allocated shallow copies — reassigning a
top-level field of a returned copy never changes the supervisor's internal
state, and listing itself does not change it — but each copy's nested
references (args, env, logBuffer) are shared with the internal record, so
in-place mutation of those structures is visible internally. -/
theorem claim_C1_amended_shallow_copies (st : JsStore) (hwf : st.Wf) :
    (∀ id, st.getRef id
        = (st.registry.find? (fun p => p.1 == id)).map (·.2))
    ∧ (st.list).1.view = st.view
    ∧ (∀ a ∈ (st.list).2, (∀ p ∈ st.registry, p.2 ≠ a)
        ∧ ∀ f, ((st.list).1.metaUpdate a f).view = (st.list).1.view)
    ∧ (∀ i p, st.registry.get? i = some p →
        (st.list).1.metas.get? (st.metas.length + i) = st.metas.get? p.2) := by
  have hfresh : ∀ a ∈ (st.list).2, st.metas.length ≤ a := by
    intro a ha
    unfold JsStore.list at ha
    simp only [List.mem_map, List.mem_range, List.length_map] at ha
    obtain ⟨i, hi, rfl⟩ := ha
    omega
  refine ⟨fun id => rfl, ?_, ?_, ?_⟩
  · unfold JsStore.view JsStore.list
    simp only
    apply List.map_congr_left
    intro p hp
    rw [List.get?_append (hwf p hp)]
  · intro a ha
    have hbase := hfresh a ha
    have hne : ∀ p ∈ st.registry, p.2 ≠ a := by
      intro p hp
      have := hwf p hp
      omega
    refine ⟨hne, fun f => ?_⟩
    exact view_metaUpdate_ne (st.list).1 a f hne
  · intro i p hpi
    have hlt : p.2 < st.metas.length := hwf p (List.get?_mem hpi)
    unfold JsStore.list
    simp only
    rw [List.get?_append_right (by omega)]
    have hsub : st.metas.length + i - st.metas.length = i := by omega
    rw [hsub, List.get?_map, hpi]
    simp only [Option.map]
    rw [List.getD_eq_get st.metas default hlt, List.get?_eq_get hlt]

/-- Witness for the amended C1 on the concrete one-record store: listing
leaves the view unchanged, and reassigning a field of the returned copy
(address 1) does not change it either. -/
theorem claim_C1_witness :
    (c1Store.list).1.view = c1Store.view
    ∧ ((c1Store.list).1.metaUpdate 1
        (fun m => { m with workDir := "w2" })).view = (c1Store.list).1.view := by
  have h := claim_C1_amended_shallow_copies c1Store
    (by unfold JsStore.Wf; decide)
  exact ⟨h.2.1, (h.2.2.1 1 (by decide)).2 _⟩
